import Mathlib

/-
Verification development for the path-addressed JSON mutation engine of the
jsoncrack editor fork.  The two source files embedded here are
  src/features/modals/NodeModal/index.tsx          (field-map commit)
  src/features/editor/views/GraphView/CustomNode/TextNode.tsx  (scalar commit)
Numbers are modelled as exact canonical fractions (plus the two JavaScript
infinities); IEEE-754 rounding and overflow are deliberately abstracted away -
every numeric value exercised by the verified statements is exactly
representable, and the components never perform arithmetic on document
numbers, they only parse and re-serialize them.
-/

/-- Error kinds a save can end in: a missing intermediate path slot
(the components' explicit `undefined` check), a thrown TypeError
(strict-mode assignment or member access on a primitive or null),
or a JSON.parse failure. -/
inductive CommitErr
  | invalidPath
  | typeError
  | parseFailure
deriving DecidableEq

/-- Euclid's algorithm with explicit fuel, so the kernel can evaluate it. -/
def gcdF : Nat → Nat → Nat → Nat
  | 0, a, _ => a
  | f + 1, a, b => if b = 0 then a else gcdF f b (a % b)

/-- A canonical fraction: numerator and positive denominator in lowest terms.
All constructor sites go through `qdMk`, so structural equality coincides with
equality of the represented rational numbers. -/
structure QD where
  num : Int
  den : Nat
deriving DecidableEq

/-- Builds the canonical fraction n / d (callers pass d > 0). -/
def qdMk (n : Int) (d : Nat) : QD :=
  let g := gcdF (n.natAbs + d + 1) n.natAbs d
  if g = 0 then ⟨n, d⟩ else ⟨n / (Int.ofNat g), d / g⟩

/-- The value mant * 10 ^ (± e) / 10 ^ fracLen as a canonical fraction:
how a decimal literal with `fracLen` fraction digits and exponent `e`
denotes a number. -/
def qdOfDec (mant : Nat) (fracLen : Nat) (expNeg : Bool) (e : Nat) : QD :=
  if expNeg then qdMk (Int.ofNat mant) (10 ^ (fracLen + e))
  else if fracLen ≤ e then ⟨Int.ofNat (mant * 10 ^ (e - fracLen)), 1⟩
  else qdMk (Int.ofNat mant) (10 ^ (fracLen - e))

/-- Negation of a canonical fraction (canonical form is preserved). -/
def qdNeg (q : QD) : QD := ⟨-q.num, q.den⟩

/-- A JavaScript number: an exact fraction or one of the two infinities.
NaN never reaches a document because both components guard coercion with
Number.isNaN. -/
inductive JsNum
  | fin (q : QD)
  | inf (neg : Bool)
deriving DecidableEq

/-- DocumentValue: the recursive JSON tree produced by JSON.parse and mutated
in place by the two save handlers. Objects are insertion-ordered association
lists, exactly as JavaScript enumerates own string keys. -/
inductive DocumentValue
  | null
  | bool (b : Bool)
  | num (n : JsNum)
  | str (s : String)
  | arr (l : List DocumentValue)
  | obj (l : List (String × DocumentValue))

/-- One segment of a structural path: an object key or an array index,
as in `NodeData["path"]`. -/
inductive Seg
  | key (s : String)
  | idx (n : Nat)
deriving DecidableEq

/-- Modelled from the spec: the document text store (`useJson`, exposing
getJson/setJson, i.e. getDocumentText/setDocumentText) and the raw content
buffer (`useFile.setContents`) are external collaborators whose implementation
is not part of the two source files; per section 6 of the spec they are two
independent text cells. -/
structure Stores where
  json : String
  contents : String
deriving DecidableEq

/-- Observable outcome of one save handler invocation: the two text stores
after the call, the failure kind if the commit aborted, and the edit-session
flag (`isEditing`) after the call. -/
structure SaveOutcome where
  stores : Stores
  err : Option CommitErr
  editing : Bool
deriving DecidableEq

/-- JavaScript whitespace for String.prototype.trim. -/
def isJsWs (c : Char) : Bool :=
  c == ' ' || c == '\t' || c == '\n' || c == '\r' ||
  c == Char.ofNat 11 || c == Char.ofNat 12 ||
  c == Char.ofNat 160 || c == Char.ofNat 0x1680 ||
  (0x2000 ≤ c.toNat && c.toNat ≤ 0x200A) ||
  c == Char.ofNat 0x2028 || c == Char.ofNat 0x2029 ||
  c == Char.ofNat 0x202F || c == Char.ofNat 0x205F ||
  c == Char.ofNat 0x3000 || c == Char.ofNat 0xFEFF

/-- Embeds `raw.trim()`. -/
def jsTrim (s : String) : String :=
  String.mk (((s.data.dropWhile isJsWs).reverse.dropWhile isJsWs).reverse)

/-- Decimal digit run to a natural number (callers guarantee digits). -/
def digitsToNat (l : List Char) : Nat :=
  l.foldl (fun a c => a * 10 + (c.toNat - 48)) 0

/-- Hexadecimal digit value. -/
def hexDigitVal (c : Char) : Option Nat :=
  if c.isDigit then some (c.toNat - 48)
  else if 'a' ≤ c ∧ c ≤ 'f' then some (c.toNat - 87)
  else if 'A' ≤ c ∧ c ≤ 'F' then some (c.toNat - 55)
  else none

/-- Octal digit value. -/
def octDigitVal (c : Char) : Option Nat :=
  if '0' ≤ c ∧ c ≤ '7' then some (c.toNat - 48) else none

/-- Binary digit value. -/
def binDigitVal (c : Char) : Option Nat :=
  if c = '0' ∨ c = '1' then some (c.toNat - 48) else none

/-- Digits of a non-decimal integer literal under a given radix; none when the
run is empty or a character is out of range. -/
def radixParse (digits : List Char) (radix : Nat) (valOf : Char → Option Nat) :
    Option Nat :=
  if digits = [] then none
  else digits.foldl
    (fun acc c => acc.bind (fun a => (valOf c).map (fun d => a * radix + d)))
    (some 0)

/-- Strips one optional leading sign, returning whether it was a minus. -/
def stripSignP : List Char → Bool × List Char
  | c :: rest => if c = '+' then (false, rest)
      else if c = '-' then (true, rest) else (false, c :: rest)
  | [] => (false, [])

/-- Remainder of a decimal literal after its digit groups: either nothing or a
whole exponent part, which must consume the rest of the input. -/
def jsExpTail (d1 d2 : List Char) (r : List Char) : Option QD :=
  match r with
  | [] => some (qdOfDec (digitsToNat (d1 ++ d2)) d2.length false 0)
  | c :: r2 =>
    if c = 'e' ∨ c = 'E' then
      let p := stripSignP r2
      let q := p.2.span Char.isDigit
      if q.1 = [] ∨ q.2 ≠ [] then none
      else some (qdOfDec (digitsToNat (d1 ++ d2)) d2.length p.1 (digitsToNat q.1))
    else none

/-- Unsigned decimal literal of the ECMAScript string-to-number grammar:
digits, optional fraction, optional exponent; `.5`, `5.` and `5.e3` are
accepted, the whole input must be consumed. -/
def jsDecParse (cs : List Char) : Option QD :=
  let p := cs.span Char.isDigit
  match p.2 with
  | c :: r2 =>
    if c = '.' then
      let p2 := r2.span Char.isDigit
      if p.1 = [] ∧ p2.1 = [] then none
      else jsExpTail p.1 p2.1 p2.2
    else if p.1 = [] then none else jsExpTail p.1 [] p.2
  | [] => if p.1 = [] then none else some (⟨Int.ofNat (digitsToNat p.1), 1⟩)

/-- Signed decimal or Infinity branch of the Number() grammar. -/
def jsSignedDec (cs : List Char) : Option JsNum :=
  let p := stripSignP cs
  if String.mk p.2 = "Infinity" then some (.inf p.1)
  else (jsDecParse p.2).map (fun q => .fin (if p.1 then qdNeg q else q))

/-- Embeds `Number(s)` on an already trimmed string, as used by
`parseDraftValue`: none exactly when the conversion yields NaN.  The empty
string converts to 0 (both components rule that case out before calling).
Hexadecimal, octal and binary literals are unsigned; decimal literals and
Infinity take an optional sign. -/
def jsNumParse (s : String) : Option JsNum :=
  match s.data with
  | [] => some (.fin ⟨0, 1⟩)
  | c0 :: c1 :: rest =>
    if c0 = '0' ∧ (c1 = 'x' ∨ c1 = 'X') then
      (radixParse rest 16 hexDigitVal).map (fun n => .fin ⟨Int.ofNat n, 1⟩)
    else if c0 = '0' ∧ (c1 = 'o' ∨ c1 = 'O') then
      (radixParse rest 8 octDigitVal).map (fun n => .fin ⟨Int.ofNat n, 1⟩)
    else if c0 = '0' ∧ (c1 = 'b' ∨ c1 = 'B') then
      (radixParse rest 2 binDigitVal).map (fun n => .fin ⟨Int.ofNat n, 1⟩)
    else jsSignedDec (c0 :: c1 :: rest)
  | cs => jsSignedDec cs

/-- Modelled from the claim's words only: a number "under standard
decimal/exponent rules" - an optional sign followed by a decimal literal with
optional fraction and exponent.  Used to compare the specified numeric-input
set against the one the source accepts through Number(). -/
def decExpParse (s : String) : Option QD :=
  let p := stripSignP s.data
  (jsDecParse p.2).map (fun q => if p.1 then qdNeg q else q)

/-- Embeds `parseDraftValue` (identical in NodeModal/index.tsx and
TextNode.tsx): trim, match the null/true/false literals, then accept any
non-empty string Number() can convert, otherwise fall back to the original
untrimmed raw string. -/
def parseDraftValue (raw : String) : DocumentValue :=
  let trimmed := jsTrim raw
  if trimmed = "null" then .null
  else if trimmed = "true" then .bool true
  else if trimmed = "false" then .bool false
  else if trimmed ≠ "" then
    match jsNumParse trimmed with
    | some n => .num n
    | none => .str raw
  else .str raw

/-- Fraction digits of rem / den, one decimal digit per step; every value the
components produce has a denominator dividing a power of ten, so the loop
terminates well inside the fuel. -/
def fracDigitChars : Nat → Nat → Nat → List Char
  | 0, _, _ => []
  | f + 1, rem, den =>
    if rem = 0 then []
    else Char.ofNat (48 + rem * 10 / den) :: fracDigitChars f (rem * 10 % den) den

/-- JavaScript number-to-string (`String(n)` and JSON number serialization),
restricted to fixed notation with exact decimal expansion - faithful on the
integer and short-decimal range the components exercise. -/
def numToString : JsNum → String
  | .inf true => "-Infinity"
  | .inf false => "Infinity"
  | .fin q =>
    let sign := if q.num < 0 then "-" else ""
    let n := q.num.natAbs
    let ip := n / q.den
    let rem := n % q.den
    if rem = 0 then sign ++ toString ip
    else sign ++ toString ip ++ "." ++ String.mk (fracDigitChars 200 rem q.den)

/-- Hexadecimal digit character (lower case), for string escapes. -/
def hexChar (n : Nat) : Char :=
  if n < 10 then Char.ofNat (48 + n) else Char.ofNat (87 + (n - 10))

/-- JSON.stringify's escape of a single character. -/
def escChar (c : Char) : List Char :=
  if c = '"' then ['\\', '"']
  else if c = '\\' then ['\\', '\\']
  else if c = '\n' then ['\\', 'n']
  else if c = '\r' then ['\\', 'r']
  else if c = '\t' then ['\\', 't']
  else if c = Char.ofNat 8 then ['\\', 'b']
  else if c = Char.ofNat 12 then ['\\', 'f']
  else if c.toNat < 32 then
    ['\\', 'u', '0', '0', hexChar (c.toNat / 16), hexChar (c.toNat % 16)]
  else [c]

/-- JSON string quoting as JSON.stringify performs it. -/
def quoteJson (s : String) : String :=
  "\"" ++ String.mk (s.data.foldr (fun c acc => escChar c ++ acc) []) ++ "\""

/-- Indentation prefix at a nesting depth for 2-space pretty printing. -/
def indentStr (d : Nat) : String :=
  String.mk (List.replicate (2 * d) ' ')

mutual

/-- Embeds `JSON.stringify(v, null, 2)` at nesting depth d: 2-space indented
canonical text; non-finite numbers serialize as null. -/
def stringifyDoc : DocumentValue → Nat → String
  | .null, _ => "null"
  | .bool true, _ => "true"
  | .bool false, _ => "false"
  | .num (.fin q), _ => numToString (.fin q)
  | .num (.inf _), _ => "null"
  | .str s, _ => quoteJson s
  | .arr [], _ => "[]"
  | .arr (v :: rest), d =>
    "[\n" ++ String.intercalate (",\n") (stringifyItems (v :: rest) (d + 1)) ++
    "\n" ++ indentStr d ++ "]"
  | .obj [], _ => "\x7b\x7d"
  | .obj (e :: rest), d =>
    "\x7b\n" ++ String.intercalate (",\n") (stringifyEntries (e :: rest) (d + 1)) ++
    "\n" ++ indentStr d ++ "\x7d"

/-- Array members of the 2-space pretty printer. -/
def stringifyItems : List DocumentValue → Nat → List String
  | [], _ => []
  | v :: rest, d => (indentStr d ++ stringifyDoc v d) :: stringifyItems rest d

/-- Object members of the 2-space pretty printer. -/
def stringifyEntries : List (String × DocumentValue) → Nat → List String
  | [], _ => []
  | (k, v) :: rest, d =>
    (indentStr d ++ quoteJson k ++ ": " ++ stringifyDoc v d) :: stringifyEntries rest d

end

mutual

/-- Embeds `String(v)` / template-literal conversion: scalars render raw,
arrays join their members with commas (null joining as the empty string),
objects render as the usual object tag. -/
def jsToString : DocumentValue → String
  | .null => "null"
  | .bool true => "true"
  | .bool false => "false"
  | .num n => numToString n
  | .str s => s
  | .arr l => String.intercalate (",") (jsJoinItems l)
  | .obj _ => "[object Object]"

/-- Member conversion for Array.prototype.join. -/
def jsJoinItems : List DocumentValue → List String
  | [] => []
  | v :: rest =>
    (match v with
     | .null => ""
     | x => jsToString x) :: jsJoinItems rest

end

/-- Association-list lookup by string key (JavaScript own-property read). -/
def assocLookup {α : Type} : List (String × α) → String → Option α
  | [], _ => none
  | (k2, v) :: rest, k => if k2 = k then some v else assocLookup rest k

/-- Association-list update: an existing key keeps its position, a fresh key
is appended - exactly JavaScript's property assignment order semantics. -/
def assocSet {α : Type} : List (String × α) → String → α → List (String × α)
  | [], k, v => [(k, v)]
  | (k2, v2) :: rest, k, v =>
    if k2 = k then (k2, v) :: rest else (k2, v2) :: assocSet rest k v

/-- Embeds the field-map write loop of NodeModal's handleSave:
`Object.entries(fields).forEach(([key, value]) => { target[key] =
parseDraftValue(value); })`. -/
def applyFields (l : List (String × DocumentValue))
    (fields : List (String × String)) : List (String × DocumentValue) :=
  fields.foldl (fun acc kv => assocSet acc kv.1 (parseDraftValue kv.2)) l

/-- Array element write: in range it replaces, beyond the length JavaScript
creates a sparse array whose holes JSON.stringify renders as null. -/
def arrSet (l : List DocumentValue) (n : Nat) (v : DocumentValue) :
    List DocumentValue :=
  if n < l.length then l.set n v
  else l ++ List.replicate (n - l.length) DocumentValue.null ++ [v]

/-- A string that is a canonical array index ("0", "17", no leading zeros). -/
def natOfCanonical (s : String) : Option Nat :=
  match s.data with
  | [] => none
  | c :: rest =>
    if (c :: rest).all Char.isDigit ∧ (c ≠ '0' ∨ rest = []) then
      some (digitsToNat (c :: rest))
    else none

/-- JavaScript property keys are strings; a numeric path segment indexes an
object through its decimal string form. -/
def segKey : Seg → String
  | .key s => s
  | .idx n => toString n

/-- Character read of a string primitive at a numeric index (JavaScript
exposes string characters as index properties). -/
def strCharAt (t : String) (n : Nat) : Option DocumentValue :=
  (t.data.get? n).map (fun c => DocumentValue.str (String.mk [c]))

/-- Reads `parent[seg]` as JavaScript evaluates it on parsed-JSON data:
`ok none` is undefined, an error is a thrown TypeError (member access on
null).  String primitives expose characters at numeric indices; other
primitives yield undefined for the keys a structural path can carry. -/
def jsGetSlot : DocumentValue → Seg → Except CommitErr (Option DocumentValue)
  | .null, _ => .error .typeError
  | .obj l, s => .ok (assocLookup l (segKey s))
  | .arr l, .idx n => .ok (l.get? n)
  | .arr l, .key s => .ok (match natOfCanonical s with
      | some n => l.get? n
      | none => none)
  | .str t, .idx n => .ok (strCharAt t n)
  | .str t, .key s => .ok (match natOfCanonical s with
      | some n => strCharAt t n
      | none => none)
  | .num _, _ => .ok none
  | .bool _, _ => .ok none

/-- One intermediate dereference of the save loops: both components walk
`parent = parent[path[i]]` and bail out when the slot is undefined. -/
def jsGetChecked (v : DocumentValue) (s : Seg) : Except CommitErr DocumentValue :=
  match jsGetSlot v s with
  | .error e => .error e
  | .ok none => .error .invalidPath
  | .ok (some c) => .ok c

/-- Writes `parent[seg] = v` in strict mode (the components are ES modules):
objects update in place or append, arrays pad with null up to a fresh numeric
index, a non-index key on an array becomes a property JSON.stringify never
shows, and assignment on null or a primitive throws a TypeError. -/
def jsSet : DocumentValue → Seg → DocumentValue → Except CommitErr DocumentValue
  | .obj l, s, v => .ok (.obj (assocSet l (segKey s) v))
  | .arr l, .idx n, v => .ok (.arr (arrSet l n v))
  | .arr l, .key s, v => .ok (match natOfCanonical s with
      | some n => .arr (arrSet l n v)
      | none => .arr l)
  | _, _, _ => .error .typeError

/-- The intermediate-segment walk both save handlers run over segments
0 .. length-2 of the path. -/
def walkInters : DocumentValue → List Seg → Except CommitErr DocumentValue
  | v, [] => .ok v
  | v, s :: rest =>
    match jsGetChecked v s with
    | .error e => .error e
    | .ok c => walkInters c rest

/-- Walks to the parent addressed by the intermediate segments and applies the
final mutation there; since parsed JSON is a tree, writing the updated child
back along the walk is exactly JavaScript's in-place reference mutation. -/
def mutateAt (act : DocumentValue → Except CommitErr DocumentValue) :
    DocumentValue → List Seg → Except CommitErr DocumentValue
  | v, [] => act v
  | v, s :: rest =>
    match jsGetChecked v s with
    | .error e => .error e
    | .ok c =>
      match mutateAt act c rest with
      | .error e => .error e
      | .ok c2 => jsSet v s c2

/-- Splits a path into its intermediate segments and final segment. -/
def splitLast : List Seg → Option (List Seg × Seg)
  | [] => none
  | [s] => some ([], s)
  | s :: rest => (splitLast rest).map (fun p => (s :: p.1, p.2))

/-- Read-only observer: the value currently sitting in the slot a path
addresses (the root itself for the empty path). -/
def readSlot (root : DocumentValue) (path : List Seg) :
    Except CommitErr (Option DocumentValue) :=
  match splitLast path with
  | none => .ok (some root)
  | some (inters, last) =>
    match walkInters root inters with
    | .error e => .error e
    | .ok p => jsGetSlot p last

/-- One displayable row of a graph node (`NodeData["text"]` member):
an optional key, an optional scalar value (undefined for container rows),
and the row's type tag. -/
structure NodeRow where
  key : Option String
  value : Option DocumentValue
  type : String

/-- JavaScript truthiness of a row key (`if (row.key)`): absent and empty
keys are falsy. -/
def keyTruthy : Option String → Bool
  | none => false
  | some s => s != ""

/-- Template-literal rendering of a possibly-undefined row value. -/
def templateOfValue : Option DocumentValue → String
  | none => "undefined"
  | some v => jsToString v

/-- A row type tag naming a container. -/
def isContainerType (t : String) : Bool := t == "array" || t == "object"

/-- The object NodeModal's normalizeNodeData accumulates: non-container rows
with truthy keys, in row order (assignment keeps first position). -/
def buildDisplayObj (rows : List NodeRow) : List (String × Option DocumentValue) :=
  rows.foldl (fun acc row =>
    if isContainerType row.type then acc
    else match row.key with
      | some k => if k = "" then acc else assocSet acc k row.value
      | none => acc) []

/-- JSON.stringify of the display object; entries whose stored value is
undefined are omitted, as JSON.stringify does. -/
def displayObjText (rows : List NodeRow) : String :=
  stringifyDoc (.obj ((buildDisplayObj rows).filterMap
    (fun kv => kv.2.map (fun v => (kv.1, v))))) 0

/-- Embeds `normalizeNodeData` of NodeModal/index.tsx: empty row list renders
as the empty-object text, a single unkeyed row renders its raw stringified
value, otherwise the non-container keyed rows render as indented JSON. -/
def normalizeNodeData (rows : List NodeRow) : String :=
  match rows with
  | [] => "\x7b\x7d"
  | [row] =>
    if keyTruthy row.key then displayObjText [row]
    else templateOfValue row.value
  | _ => displayObjText rows

/-- Embeds `extractEditableFields` of NodeModal/index.tsx: every
non-container row with a truthy key contributes its stringified value
(null and undefined contribute the empty string). -/
def extractEditableFields (rows : List NodeRow) : List (String × String) :=
  rows.foldl (fun acc row =>
    if isContainerType row.type then acc
    else match row.key with
      | some k =>
        if k = "" then acc
        else assocSet acc k (match row.value with
          | none => ""
          | some .null => ""
          | some v => jsToString v)
      | none => acc) []

/-- The spec's FieldProjector contract: display text plus editable field set. -/
def project (rows : List NodeRow) : String × List (String × String) :=
  (normalizeNodeData rows, extractEditableFields rows)

/-- JSON whitespace (JSON.parse's ws production). -/
def jpSkipWs : List Char → List Char
  | c :: rest =>
    if c = ' ' ∨ c = '\t' ∨ c = '\n' ∨ c = '\r' then jpSkipWs rest else c :: rest
  | [] => []

/-- Body of a JSON string after the opening quote: content characters and the
remainder after the closing quote. -/
def jpStringBody : List Char → Option (List Char × List Char)
  | [] => none
  | c :: rest =>
    if c = '"' then some ([], rest)
    else if c = '\\' then
      match rest with
      | [] => none
      | e :: r2 =>
        if e = 'u' then
          match r2 with
          | a :: b :: c3 :: d :: r3 =>
            match hexDigitVal a, hexDigitVal b, hexDigitVal c3, hexDigitVal d with
            | some ha, some hb, some hc, some hd =>
              (jpStringBody r3).map (fun p =>
                (Char.ofNat (((ha * 16 + hb) * 16 + hc) * 16 + hd) :: p.1, p.2))
            | _, _, _, _ => none
          | _ => none
        else
          let m : Option Char :=
            if e = '"' then some '"'
            else if e = '\\' then some '\\'
            else if e = '/' then some '/'
            else if e = 'b' then some (Char.ofNat 8)
            else if e = 'f' then some (Char.ofNat 12)
            else if e = 'n' then some '\n'
            else if e = 'r' then some '\r'
            else if e = 't' then some '\t'
            else none
          match m with
          | some mc => (jpStringBody r2).map (fun p => (mc :: p.1, p.2))
          | none => none
    else if c.toNat < 32 then none
    else (jpStringBody rest).map (fun p => (c :: p.1, p.2))

/-- A JSON number token (strict JSON grammar: no leading plus, no bare dot,
no leading zeros), returning its exact value and the remaining input. -/
def jpNumber (cs : List Char) : Option (QD × List Char) :=
  let sp : Bool × List Char :=
    match cs with
    | c :: rest => if c = '-' then (true, rest) else (false, cs)
    | [] => (false, [])
  match sp.2 with
  | [] => none
  | c :: rest =>
    if ¬ c.isDigit then none
    else
      let bad : Bool := c = '0' && (match rest with
        | d :: _ => d.isDigit
        | [] => false)
      if bad then none
      else
        let ip := (c :: rest).span Char.isDigit
        let fr : Option (List Char × List Char) :=
          match ip.2 with
          | d :: r2 =>
            if d = '.' then
              let p2 := r2.span Char.isDigit
              if p2.1 = [] then none else some (p2.1, p2.2)
            else some ([], ip.2)
          | [] => some ([], [])
        match fr with
        | none => none
        | some (fd, r3) =>
          let ex : Option (Bool × Nat × List Char) :=
            match r3 with
            | e :: r4 =>
              if e = 'e' ∨ e = 'E' then
                let p := stripSignP r4
                let q := p.2.span Char.isDigit
                if q.1 = [] then none else some (p.1, digitsToNat q.1, q.2)
              else some (false, 0, r3)
            | [] => some (false, 0, [])
          match ex with
          | none => none
          | some (en, ev, r5) =>
            let mag := qdOfDec (digitsToNat (ip.1 ++ fd)) fd.length en ev
            some ((if sp.1 then qdNeg mag else mag), r5)

mutual

/-- One JSON value (fueled recursive-descent embedding of JSON.parse). -/
def jpVal : Nat → List Char → Option (DocumentValue × List Char)
  | 0, _ => none
  | f + 1, cs0 =>
    match jpSkipWs cs0 with
    | [] => none
    | c :: rest =>
      if c = 'n' then
        if rest.take 3 = ['u', 'l', 'l'] then some (.null, rest.drop 3) else none
      else if c = 't' then
        if rest.take 3 = ['r', 'u', 'e'] then some (.bool true, rest.drop 3) else none
      else if c = 'f' then
        if rest.take 4 = ['a', 'l', 's', 'e'] then some (.bool false, rest.drop 4)
        else none
      else if c = '"' then
        (jpStringBody rest).map (fun p => (.str (String.mk p.1), p.2))
      else if c = '[' then
        match jpSkipWs rest with
        | d :: r2 =>
          if d = ']' then some (.arr [], r2)
          else (jpArrLoop f (d :: r2)).map (fun p => (.arr p.1, p.2))
        | [] => none
      else if c = Char.ofNat 123 then
        match jpSkipWs rest with
        | d :: r2 =>
          if d = Char.ofNat 125 then some (.obj [], r2)
          else
            (jpObjLoop f (d :: r2)).map (fun p =>
              (.obj (p.1.foldl (fun a kv => assocSet a kv.1 kv.2) []), p.2))
        | [] => none
      else
        (jpNumber (c :: rest)).map (fun p => (.num (.fin p.1), p.2))

/-- Comma-separated array members up to the closing bracket. -/
def jpArrLoop : Nat → List Char → Option (List DocumentValue × List Char)
  | 0, _ => none
  | f + 1, cs =>
    match jpVal f cs with
    | none => none
    | some (v, r1) =>
      match jpSkipWs r1 with
      | [] => none
      | c :: r2 =>
        if c = ']' then some ([v], r2)
        else if c = ',' then
          match jpArrLoop f r2 with
          | some (vs, r3) => some (v :: vs, r3)
          | none => none
        else none

/-- Comma-separated object members up to the closing brace, in textual order
(duplicate keys are folded afterwards, last value winning in first position,
as JavaScript property assignment does). -/
def jpObjLoop : Nat → List Char → Option (List (String × DocumentValue) × List Char)
  | 0, _ => none
  | f + 1, cs =>
    match jpSkipWs cs with
    | [] => none
    | c :: rest =>
      if c = '"' then
        match jpStringBody rest with
        | none => none
        | some (kcs, r1) =>
          match jpSkipWs r1 with
          | [] => none
          | c2 :: r2 =>
            if c2 = ':' then
              match jpVal f r2 with
              | none => none
              | some (v, r3) =>
                match jpSkipWs r3 with
                | [] => none
                | c3 :: r4 =>
                  if c3 = Char.ofNat 125 then some ([(String.mk kcs, v)], r4)
                  else if c3 = ',' then
                    match jpObjLoop f r4 with
                    | some (es, r5) => some ((String.mk kcs, v) :: es, r5)
                    | none => none
                  else none
            else none
      else none

end

/-- Embeds `JSON.parse(s)`: one JSON value, then only trailing whitespace.
The fuel is an upper bound on recursion depth amply covered by the length. -/
def jsonParse (s : String) : Except CommitErr DocumentValue :=
  match jpVal (4 * s.length + 16) s.data with
  | some (v, rest) => if jpSkipWs rest = [] then .ok v else .error .parseFailure
  | none => .error .parseFailure

/-- Embeds `currentJson ? JSON.parse(currentJson) : {}` of both save
handlers: the empty document text (the only falsy string) becomes a fresh
empty object instead of a parse attempt. -/
def loadRoot (s : String) : Except CommitErr DocumentValue :=
  if s = "" then .ok (.obj []) else jsonParse s

/-- First entry of the field map, `Object.values(fields)[0] ?? ""`. -/
def firstFieldValue (fields : List (String × String)) : String :=
  match fields with
  | [] => ""
  | kv :: _ => kv.2

/-- The mutation NodeModal's handleSave performs at the resolved parent for a
non-empty path: read `nodeTarget = parent[lastKey]`; a non-array object target
takes every coerced field entry, anything else (scalar, array, null,
undefined) makes `parent[lastKey]` the coerced first field value. -/
def nodeModalAction (fields : List (String × String)) (last : Seg)
    (parent : DocumentValue) : Except CommitErr DocumentValue :=
  match jsGetSlot parent last with
  | .error e => .error e
  | .ok (some (.obj l)) => jsSet parent last (.obj (applyFields l fields))
  | .ok _ => jsSet parent last (parseDraftValue (firstFieldValue fields))

/-- The empty-path branch of NodeModal's handleSave.  `typeof null` is
"object", so a null root enters the field-map loop and the first assignment
throws; a non-object root has its replacement assigned to the local
`nodeTarget` only - a dead store, the root stays what it was. -/
def nodeModalRootUpdate (root : DocumentValue) (fields : List (String × String)) :
    Except CommitErr DocumentValue :=
  match root with
  | .obj l => .ok (.obj (applyFields l fields))
  | .null => if fields.isEmpty then .ok .null else .error .typeError
  | v => .ok v

/-- The document mutation of NodeModal's handleSave (the body of its try
block before serialization). -/
def nodeModalMutate (root : DocumentValue) (path : List Seg)
    (fields : List (String × String)) : Except CommitErr DocumentValue :=
  match splitLast path with
  | none => nodeModalRootUpdate root fields
  | some (inters, last) => mutateAt (nodeModalAction fields last) root inters

/-- Embeds NodeModal's handleSave end to end: parse the document text (empty
text becomes {}), mutate, and on success publish the same re-serialized text
to both the document store (setJson) and the raw content buffer
(setContents); every exit re-enters non-editing state. -/
def nodeModalSave (st : Stores) (path : List Seg)
    (fields : List (String × String)) : SaveOutcome :=
  match loadRoot st.json with
  | .error e => ⟨st, some e, false⟩
  | .ok root =>
    match nodeModalMutate root path fields with
    | .error e => ⟨st, some e, false⟩
    | .ok r =>
      let t := stringifyDoc r 0
      ⟨⟨t, t⟩, none, false⟩

/-- The document mutation of TextNode's handleSave: assign the coerced draft
into the final slot, whatever currently sits there. -/
def textNodeMutate (root : DocumentValue) (path : List Seg) (draft : String) :
    Except CommitErr DocumentValue :=
  match splitLast path with
  | none => .ok root
  | some (inters, last) =>
    mutateAt (fun parent => jsSet parent last (parseDraftValue draft)) root inters

/-- The draft comparison guard of TextNode's handleSave,
`String(value ?? "")`. -/
def jsValueDraft : Option DocumentValue → String
  | none => ""
  | some .null => ""
  | some v => jsToString v

/-- Embeds TextNode's handleSave end to end: bail out silently when the draft
equals the displayed value or the path is empty; otherwise parse the document
text (empty text becomes {}), mutate, and on success publish the re-serialized
text to the document store only (`useJson.setJson`); every exit re-enters
non-editing state. -/
def textNodeSave (st : Stores) (value : Option DocumentValue) (draft : String)
    (path : List Seg) : SaveOutcome :=
  if jsValueDraft value = draft then ⟨st, none, false⟩
  else if path = [] then ⟨st, none, false⟩
  else
    match loadRoot st.json with
    | .error e => ⟨st, some e, false⟩
    | .ok root =>
      match textNodeMutate root path draft with
      | .error e => ⟨st, some e, false⟩
      | .ok r => ⟨⟨stringifyDoc r 0, st.contents⟩, none, false⟩

/-- A container document value (non-null object or array). -/
def isContainer : DocumentValue → Bool
  | .obj _ => true
  | .arr _ => true
  | _ => false

/-- The draft text a document value projects into an editable field
(extractEditableFields' value conversion): null projects to the empty
string, other scalars to their raw string form. -/
def fieldText : DocumentValue → String
  | .null => ""
  | v => jsToString v

/-- The field map an object node currently projects: its non-container
entries with truthy keys, each rendered through fieldText - the field set the
modal shows when no edit has been typed. -/
def projectObjFields (l : List (String × DocumentValue)) : List (String × String) :=
  l.filterMap (fun kv =>
    if isContainer kv.2 then none
    else if kv.1 = "" then none
    else some (kv.1, fieldText kv.2))

theorem assocLookup_assocSet_self {α : Type} (l : List (String × α)) (k : String)
    (v : α) : assocLookup (assocSet l k v) k = some v := by
  induction l with
  | nil => simp [assocSet, assocLookup]
  | cons hd tl ih =>
    obtain ⟨k2, v2⟩ := hd
    by_cases h : k2 = k
    · simp [assocSet, assocLookup, h]
    · simp [assocSet, assocLookup, h, ih]

theorem assocLookup_assocSet_ne {α : Type} (l : List (String × α)) (k k2 : String)
    (v : α) (h : k2 ≠ k) :
    assocLookup (assocSet l k v) k2 = assocLookup l k2 := by
  induction l with
  | nil => simp [assocSet, assocLookup, Ne.symm h]
  | cons hd tl ih =>
    obtain ⟨k3, v3⟩ := hd
    by_cases h3 : k3 = k
    · subst h3
      simp [assocSet, assocLookup, Ne.symm h]
    · simp [assocSet, assocLookup, h3, ih]

theorem assocSet_self {α : Type} (l : List (String × α)) (k : String) (v : α)
    (h : assocLookup l k = some v) : assocSet l k v = l := by
  induction l with
  | nil => simp [assocLookup] at h
  | cons hd tl ih =>
    obtain ⟨k2, v2⟩ := hd
    by_cases h2 : k2 = k
    · simp [assocLookup, h2] at h
      simp [assocSet, h2, h]
    · simp [assocLookup, h2] at h
      simp [assocSet, h2, ih h]

theorem assocLookup_of_mem_nodup {α : Type} (l : List (String × α)) (k : String)
    (v : α) (hn : (l.map Prod.fst).Nodup) (hm : (k, v) ∈ l) :
    assocLookup l k = some v := by
  induction l with
  | nil => simp at hm
  | cons hd tl ih =>
    obtain ⟨k2, v2⟩ := hd
    rcases List.mem_cons.mp hm with heq | htl
    · injection heq with h1 h2
      subst h1
      subst h2
      simp [assocLookup]
    · rw [List.map_cons] at hn
      have hn2 := List.nodup_cons.mp hn
      have hk2 : k2 ≠ k := by
        intro heqk
        subst heqk
        exact hn2.1 (List.mem_map.mpr ⟨(k2, v), htl, rfl⟩)
      rw [assocLookup]
      simp only [if_neg hk2]
      exact ih hn2.2 htl

theorem applyFields_frame (l : List (String × DocumentValue))
    (fields : List (String × String)) (k : String)
    (h : k ∉ fields.map Prod.fst) :
    assocLookup (applyFields l fields) k = assocLookup l k := by
  induction fields generalizing l with
  | nil => rfl
  | cons kv rest ih =>
    rw [List.map_cons] at h
    have hne : k ≠ kv.1 := by
      intro h2
      exact h (h2 ▸ List.mem_cons_self kv.1 (rest.map Prod.fst))
    have hrest : k ∉ rest.map Prod.fst := fun hmem =>
      h (List.mem_cons.mpr (Or.inr hmem))
    show assocLookup (applyFields (assocSet l kv.1 (parseDraftValue kv.2)) rest) k =
      assocLookup l k
    rw [ih _ hrest, assocLookup_assocSet_ne _ _ _ _ hne]

theorem applyFields_mem (l : List (String × DocumentValue))
    (fields : List (String × String)) (k raw : String)
    (hn : (fields.map Prod.fst).Nodup) (hm : (k, raw) ∈ fields) :
    assocLookup (applyFields l fields) k = some (parseDraftValue raw) := by
  induction fields generalizing l with
  | nil => simp at hm
  | cons kv rest ih =>
    rw [List.map_cons] at hn
    have hn2 := List.nodup_cons.mp hn
    rcases List.mem_cons.mp hm with heq | htl
    · obtain rfl : kv = (k, raw) := heq.symm
      have hnot : k ∉ rest.map Prod.fst := by simpa using hn2.1
      show assocLookup (applyFields (assocSet l k (parseDraftValue raw)) rest) k = _
      rw [applyFields_frame _ _ _ hnot, assocLookup_assocSet_self]
    · show assocLookup (applyFields (assocSet l kv.1 (parseDraftValue kv.2)) rest) k = _
      exact ih _ hn2.2 htl

theorem applyFields_noop (l : List (String × DocumentValue))
    (fields : List (String × String))
    (h : ∀ kv ∈ fields, assocLookup l kv.1 = some (parseDraftValue kv.2)) :
    applyFields l fields = l := by
  induction fields with
  | nil => rfl
  | cons kv rest ih =>
    have h1 : assocSet l kv.1 (parseDraftValue kv.2) = l :=
      assocSet_self _ _ _ (h kv (List.mem_cons_self ..))
    show applyFields (assocSet l kv.1 (parseDraftValue kv.2)) rest = l
    rw [h1]
    exact ih (fun kv2 hkv2 => h kv2 (List.mem_cons.mpr (Or.inr hkv2)))

theorem listGetSome {α : Type} :
    ∀ (l : List α) (n : Nat) (c : α), l.get? n = some c → n < l.length := by
  intro l
  induction l with
  | nil => intro n c h; simp [List.get?] at h
  | cons hd tl ih =>
    intro n c h
    cases n with
    | zero => simp
    | succ m =>
      have := ih m c (by simpa [List.get?] using h)
      simpa using Nat.succ_lt_succ this

theorem listSetGet {α : Type} :
    ∀ (l : List α) (n : Nat) (v : α), n < l.length → (l.set n v).get? n = some v := by
  intro l
  induction l with
  | nil => intro n v h; simp at h
  | cons hd tl ih =>
    intro n v h
    cases n with
    | zero => rfl
    | succ m => exact ih m v (by simpa using Nat.lt_of_succ_lt_succ h)

theorem listSetSelf {α : Type} :
    ∀ (l : List α) (n : Nat) (c : α), l.get? n = some c → l.set n c = l := by
  intro l
  induction l with
  | nil => intro n c h; simp [List.get?] at h
  | cons hd tl ih =>
    intro n c h
    cases n with
    | zero =>
      simp [List.get?] at h
      simp [List.set, h]
    | succ m =>
      simp [List.get?] at h
      simp [List.set]
      exact ih m c (by simpa [List.get?] using h)

theorem listGetAppendRight {α : Type} :
    ∀ (l r : List α) (n : Nat), l.length ≤ n →
    (l ++ r).get? n = r.get? (n - l.length) := by
  intro l
  induction l with
  | nil => intro r n h; simp
  | cons hd tl ih =>
    intro r n h
    cases n with
    | zero => simp at h
    | succ m =>
      show (tl ++ r).get? m = r.get? (m + 1 - (hd :: tl).length)
      rw [ih r m (by simpa [List.length_cons] using Nat.le_of_succ_le_succ h)]
      have hidx : m - tl.length = m + 1 - (hd :: tl).length := by
        simp [List.length_cons]
      rw [hidx]

theorem arrSet_get (l : List DocumentValue) (n : Nat) (v : DocumentValue) :
    (arrSet l n v).get? n = some v := by
  unfold arrSet
  split
  · exact listSetGet l n v (by assumption)
  · rename_i hn
    have hle : l.length ≤ n := Nat.le_of_not_lt hn
    rw [show (l ++ List.replicate (n - l.length) DocumentValue.null ++ [v]) =
      l ++ (List.replicate (n - l.length) DocumentValue.null ++ [v]) from by
        simp [List.append_assoc]]
    rw [listGetAppendRight l _ n hle]
    rw [listGetAppendRight (List.replicate (n - l.length) DocumentValue.null) [v]
      (n - l.length) (by simp [List.length_replicate])]
    simp [List.length_replicate]
theorem arrSet_self (l : List DocumentValue) (n : Nat) (c : DocumentValue)
    (h : l.get? n = some c) : arrSet l n c = l := by
  unfold arrSet
  rw [if_pos (listGetSome l n c h)]
  exact listSetSelf l n c h

theorem splitLast_concat :
    ∀ (inters : List Seg) (last : Seg),
    splitLast (inters ++ [last]) = some (inters, last) := by
  intro inters last
  induction inters with
  | nil => rfl
  | cons s rest ih =>
    cases rest with
    | nil => rfl
    | cons s2 r2 =>
      show (splitLast ((s2 :: r2) ++ [last])).map (fun p => (s :: p.1, p.2)) =
        some (s :: s2 :: r2, last)
      rw [ih]
      rfl

theorem container_of_slot (v : DocumentValue) (s : Seg) (c : DocumentValue)
    (hs : jsGetSlot v s = .ok (some c)) (hnc : ∀ u, c ≠ .str u) :
    isContainer v = true := by
  cases v with
  | obj l => rfl
  | arr l => rfl
  | null => simp [jsGetSlot] at hs
  | bool b => simp [jsGetSlot] at hs
  | num q => simp [jsGetSlot] at hs
  | str t =>
    exfalso
    cases s with
    | idx n =>
      simp [jsGetSlot, strCharAt] at hs
      obtain ⟨ch, _, hc⟩ := hs
      exact hnc _ hc.symm
    | key s2 =>
      cases hncan : natOfCanonical s2 with
      | none => simp [jsGetSlot, hncan] at hs
      | some n =>
        simp [jsGetSlot, hncan, strCharAt] at hs
        obtain ⟨ch, _, hc⟩ := hs
        exact hnc _ hc.symm

theorem slot_set (v : DocumentValue) (s : Seg) (c x : DocumentValue)
    (hc : isContainer v = true) (hs : jsGetSlot v s = .ok (some c)) :
    ∃ w, jsSet v s x = .ok w ∧ jsGetSlot w s = .ok (some x) := by
  cases v with
  | obj l =>
    refine ⟨.obj (assocSet l (segKey s) x), rfl, ?_⟩
    simp [jsGetSlot, assocLookup_assocSet_self]
  | arr l =>
    cases s with
    | idx n =>
      refine ⟨.arr (arrSet l n x), rfl, ?_⟩
      simp [jsGetSlot]
      simpa [List.get?_eq_getElem?] using arrSet_get l n x
    | key s2 =>
      cases hncan : natOfCanonical s2 with
      | none => simp [jsGetSlot, hncan] at hs
      | some n =>
        refine ⟨.arr (arrSet l n x), by simp [jsSet, hncan], ?_⟩
        simp [jsGetSlot, hncan]
        simpa [List.get?_eq_getElem?] using arrSet_get l n x
  | null => simp [isContainer] at hc
  | bool b => simp [isContainer] at hc
  | num q => simp [isContainer] at hc
  | str t => simp [isContainer] at hc

theorem jsSet_self (v : DocumentValue) (s : Seg) (c : DocumentValue)
    (hc : isContainer v = true) (hs : jsGetSlot v s = .ok (some c)) :
    jsSet v s c = .ok v := by
  cases v with
  | obj l =>
    have hl : assocLookup l (segKey s) = some c := by
      simpa [jsGetSlot] using hs
    simp [jsSet, assocSet_self _ _ _ hl]
  | arr l =>
    cases s with
    | idx n =>
      have hl : l.get? n = some c := by simpa [jsGetSlot] using hs
      simp [jsSet, arrSet_self _ _ _ hl]
    | key s2 =>
      cases hncan : natOfCanonical s2 with
      | none => simp [jsGetSlot, hncan] at hs
      | some n =>
        have hl : l.get? n = some c := by simpa [jsGetSlot, hncan] using hs
        simp [jsSet, hncan, arrSet_self _ _ _ hl]
  | null => simp [isContainer] at hc
  | bool b => simp [isContainer] at hc
  | num q => simp [isContainer] at hc
  | str t => simp [isContainer] at hc

theorem checked_slot (v : DocumentValue) (s : Seg) (c : DocumentValue)
    (h : jsGetChecked v s = .ok c) : jsGetSlot v s = .ok (some c) := by
  unfold jsGetChecked at h
  cases hq : jsGetSlot v s with
  | error e => rw [hq] at h; exact absurd h (by simp)
  | ok o =>
    cases o with
    | none => rw [hq] at h; exact absurd h (by simp)
    | some c2 =>
      rw [hq] at h
      have hcc : c2 = c := by injection h
      rw [hcc]

theorem checked_str (t : String) (s : Seg) (c : DocumentValue)
    (h : jsGetChecked (.str t) s = .ok c) : ∃ u, c = .str u := by
  have hs := checked_slot _ _ _ h
  cases s with
  | idx n =>
    simp [jsGetSlot, strCharAt] at hs
    obtain ⟨ch, _, hc⟩ := hs
    exact ⟨_, hc.symm⟩
  | key s2 =>
    cases hncan : natOfCanonical s2 with
    | none => simp [jsGetSlot, hncan] at hs
    | some n =>
      simp [jsGetSlot, hncan, strCharAt] at hs
      obtain ⟨ch, _, hc⟩ := hs
      exact ⟨_, hc.symm⟩

theorem mutateAt_error_of_walk (act : DocumentValue → Except CommitErr DocumentValue) :
    ∀ (segs : List Seg) (v : DocumentValue) (e : CommitErr),
    walkInters v segs = .error e → mutateAt act v segs = .error e := by
  intro segs
  induction segs with
  | nil => intro v e h; simp [walkInters] at h
  | cons s rest ih =>
    intro v e h
    cases hg : jsGetChecked v s with
    | error e2 =>
      simp only [walkInters, hg] at h
      injection h with h2
      simp only [mutateAt, hg, h2]
    | ok c =>
      simp only [walkInters, hg] at h
      simp only [mutateAt, hg, ih c e h]

theorem walk_str :
    ∀ (segs : List Seg) (t : String) (p : DocumentValue),
    walkInters (.str t) segs = .ok p → ∃ u, p = .str u := by
  intro segs
  induction segs with
  | nil =>
    intro t p h
    simp only [walkInters] at h
    injection h with h2
    exact ⟨t, h2.symm⟩
  | cons s rest ih =>
    intro t p h
    cases hg : jsGetChecked (.str t) s with
    | error e => simp [walkInters, hg] at h
    | ok c =>
      simp only [walkInters, hg] at h
      obtain ⟨u, rfl⟩ := checked_str t s c hg
      exact ih u p h

theorem mutate_ok (act : DocumentValue → Except CommitErr DocumentValue) :
    ∀ (segs : List Seg) (v p p2 : DocumentValue),
    isContainer p = true → walkInters v segs = .ok p → act p = .ok p2 →
    ∃ r, mutateAt act v segs = .ok r ∧ walkInters r segs = .ok p2 := by
  intro segs
  induction segs with
  | nil =>
    intro v p p2 hc hw ha
    simp only [walkInters] at hw
    injection hw with hw2
    subst hw2
    exact ⟨p2, by simp only [mutateAt]; exact ha, by simp only [walkInters]⟩
  | cons s rest ih =>
    intro v p p2 hc hw ha
    cases hg : jsGetChecked v s with
    | error e => simp [walkInters, hg] at hw
    | ok c =>
      simp only [walkInters, hg] at hw
      obtain ⟨rc, hrc, hwrc⟩ := ih c p p2 hc hw ha
      have hvc : isContainer v = true := by
        cases v with
        | str t =>
          obtain ⟨u, rfl⟩ := checked_str t s c hg
          obtain ⟨u2, hp⟩ := walk_str rest u p hw
          rw [hp] at hc
          simp [isContainer] at hc
        | null => simp [jsGetChecked, jsGetSlot] at hg
        | bool b => simp [jsGetChecked, jsGetSlot] at hg
        | num q => simp [jsGetChecked, jsGetSlot] at hg
        | obj l => rfl
        | arr l => rfl
      obtain ⟨w, hset, hwslot⟩ := slot_set v s c rc hvc (checked_slot v s c hg)
      refine ⟨w, ?_, ?_⟩
      · simp only [mutateAt, hg, hrc, hset]
      · have hcw : jsGetChecked w s = .ok rc := by
          simp only [jsGetChecked, hwslot]
        simp only [walkInters, hcw, hwrc]

theorem mutate_id (act : DocumentValue → Except CommitErr DocumentValue)
    (hstr : ∀ (t : String) (r : DocumentValue), act (.str t) ≠ .ok r) :
    ∀ (segs : List Seg) (v p : DocumentValue),
    walkInters v segs = .ok p → act p = .ok p →
    mutateAt act v segs = .ok v := by
  intro segs
  induction segs with
  | nil =>
    intro v p h ha
    simp only [walkInters] at h
    injection h with h2
    subst h2
    simp only [mutateAt]
    exact ha
  | cons s rest ih =>
    intro v p h ha
    cases hg : jsGetChecked v s with
    | error e => simp [walkInters, hg] at h
    | ok c =>
      simp only [walkInters, hg] at h
      have hmc : mutateAt act c rest = .ok c := ih c p h ha
      have hvc : isContainer v = true := by
        cases v with
        | str t =>
          obtain ⟨u, rfl⟩ := checked_str t s c hg
          obtain ⟨u2, hp⟩ := walk_str rest u p h
          exact absurd (hp ▸ ha) (hstr u2 _)
        | null => simp [jsGetChecked, jsGetSlot] at hg
        | bool b => simp [jsGetChecked, jsGetSlot] at hg
        | num q => simp [jsGetChecked, jsGetSlot] at hg
        | obj l => rfl
        | arr l => rfl
      simp only [mutateAt, hg, hmc, jsSet_self v s c hvc (checked_slot v s c hg)]

theorem jsGetSlot_ne_parse (v : DocumentValue) (s : Seg) :
    jsGetSlot v s ≠ .error .parseFailure := by
  cases v <;> cases s <;> simp [jsGetSlot]

theorem jsGetChecked_ne_parse (v : DocumentValue) (s : Seg) :
    jsGetChecked v s ≠ .error .parseFailure := by
  cases hq : jsGetSlot v s with
  | error e =>
    simp only [jsGetChecked, hq]
    have := jsGetSlot_ne_parse v s
    rw [hq] at this
    intro hcon
    injection hcon with h2
    exact this (by rw [h2])
  | ok o => cases o <;> simp [jsGetChecked, hq]

theorem jsSet_ne_parse (v : DocumentValue) (s : Seg) (x : DocumentValue) :
    jsSet v s x ≠ .error .parseFailure := by
  cases v <;> cases s <;> simp [jsSet]

theorem mutateAt_ne_parse (act : DocumentValue → Except CommitErr DocumentValue)
    (hact : ∀ p, act p ≠ .error .parseFailure) :
    ∀ (segs : List Seg) (v : DocumentValue),
    mutateAt act v segs ≠ .error .parseFailure := by
  intro segs
  induction segs with
  | nil => intro v; simp only [mutateAt]; exact hact v
  | cons s rest ih =>
    intro v
    cases hg : jsGetChecked v s with
    | error e =>
      simp only [mutateAt, hg]
      have := jsGetChecked_ne_parse v s
      rw [hg] at this
      intro hcon
      injection hcon with h2
      exact this (by rw [h2])
    | ok c =>
      cases hm : mutateAt act c rest with
      | error e =>
        simp only [mutateAt, hg, hm]
        have := ih c
        rw [hm] at this
        intro hcon
        injection hcon with h2
        exact this (by rw [h2])
      | ok c2 =>
        simp only [mutateAt, hg, hm]
        exact jsSet_ne_parse v s c2

theorem nodeModalAction_ne_parse (fields : List (String × String)) (last : Seg)
    (parent : DocumentValue) :
    nodeModalAction fields last parent ≠ .error .parseFailure := by
  cases hq : jsGetSlot parent last with
  | error e =>
    simp only [nodeModalAction, hq]
    have := jsGetSlot_ne_parse parent last
    rw [hq] at this
    intro hcon
    injection hcon with h2
    exact this (by rw [h2])
  | ok o =>
    cases o with
    | none =>
      simp only [nodeModalAction, hq]
      exact jsSet_ne_parse parent last _
    | some c =>
      cases c <;> simp only [nodeModalAction, hq] <;>
        exact jsSet_ne_parse parent last _

theorem nodeModalMutate_ne_parse (root : DocumentValue) (path : List Seg)
    (fields : List (String × String)) :
    nodeModalMutate root path fields ≠ .error .parseFailure := by
  cases hs : splitLast path with
  | none =>
    cases root <;> simp [nodeModalMutate, hs, nodeModalRootUpdate]
    split <;> simp
  | some p =>
    simp only [nodeModalMutate, hs]
    exact mutateAt_ne_parse _ (nodeModalAction_ne_parse fields p.2) p.1 root

theorem textNodeMutate_ne_parse (root : DocumentValue) (path : List Seg)
    (draft : String) :
    textNodeMutate root path draft ≠ .error .parseFailure := by
  cases hs : splitLast path with
  | none => simp [textNodeMutate, hs]
  | some p =>
    simp only [textNodeMutate, hs]
    exact mutateAt_ne_parse _ (fun q => jsSet_ne_parse q p.2 _) p.1 root

theorem nodeModalAction_str (fields : List (String × String)) (last : Seg)
    (t : String) (r : DocumentValue) :
    nodeModalAction fields last (.str t) ≠ .ok r := by
  cases hq : jsGetSlot (.str t) last with
  | error e => simp [nodeModalAction, hq]
  | ok o =>
    cases o with
    | none => simp [nodeModalAction, hq, jsSet]
    | some c =>
      have hck : jsGetChecked (.str t) last = .ok c := by
        simp [jsGetChecked, hq]
      obtain ⟨u, rfl⟩ := checked_str t last c hck
      simp [nodeModalAction, hq, jsSet]

theorem applyProject_self (l : List (String × DocumentValue))
    (hn : (l.map Prod.fst).Nodup)
    (hf : ∀ k v, (k, v) ∈ l → isContainer v = false → k ≠ "" →
      parseDraftValue (fieldText v) = v) :
    applyFields l (projectObjFields l) = l := by
  apply applyFields_noop
  intro kv hkv
  obtain ⟨a, hal, hfa⟩ := List.mem_filterMap.mp hkv
  obtain ⟨k, v⟩ := a
  dsimp only [projectObjFields] at hfa
  by_cases hc : isContainer v = true
  · rw [if_pos hc] at hfa
    exact absurd hfa (by simp)
  · rw [if_neg hc] at hfa
    by_cases hk : k = ""
    · rw [if_pos hk] at hfa
      exact absurd hfa (by simp)
    · rw [if_neg hk] at hfa
      injection hfa with hfa2
      rw [← hfa2]
      dsimp only
      have hcf : isContainer v = false := by
        cases hcv : isContainer v
        · rfl
        · exact absurd hcv hc
      rw [hf k v hal hcf hk]
      exact assocLookup_of_mem_nodup l k v hn hal

/-- C1: the spec says a commit whose resolved target is not a non-array
object applies scalar-replace semantics, and in particular that with an empty
path the published root becomes coerce(rawText).  The code loses that edit:
NodeModal's root branch assigns the coerced replacement to the local variable
`nodeTarget` only and then re-serializes the untouched root, so document "5"
with field draft "42" republishes "5" (the coerced draft would serialize as
"42"); TextNode refuses empty paths outright, also publishing nothing. -/
theorem c1_root_scalar_replace_is_dead_store :
  nodeModalSave ⟨"5", "5"⟩ [] [("", "42")] = ⟨⟨"5", "5"⟩, none, false⟩ ∧
  stringifyDoc (parseDraftValue ("42")) 0 = "42" ∧
  textNodeSave ⟨"5", "5"⟩ (some (.num (.fin ⟨5, 1⟩))) ("42") [] =
    ⟨⟨"5", "5"⟩, none, false⟩ := by
  refine ⟨by decide, by decide, by decide⟩

/-- C2 counterexample: the claim predicts project([unkeyed "x" row]).fields =
a single synthetic entry mapping "" to "x", but extractEditableFields keeps
only rows with a truthy key, so the field set is empty, not that entry. -/
theorem c2_unkeyed_row_yields_no_field :
  extractEditableFields [⟨none, some (.str ("x")), "string"⟩] = [] ∧
  ([] : List (String × String)) ≠ [("", "x")] := by
  refine ⟨by decide, by decide⟩

/-- C2 amended: projecting a single unkeyed scalar string row yields the raw
(unquoted) display "x" and an empty field set - unkeyed rows contribute no
editable field. -/
theorem c2_unkeyed_scalar_projection :
  project [⟨none, some (.str ("x")), "string"⟩] = ("x", []) := by decide

/-- C3: the claim says both commit variants publish the same re-serialized
text to the document text store and the raw content buffer.  NodeModal does;
TextNode's handleSave calls only the document store's setJson (despite its
own comment "updates left JSON editor + graph"), so after a successful
TextNode commit the raw content buffer still holds the stale text. -/
theorem c3_textnode_commit_leaves_buffer_stale :
  textNodeSave ⟨"\x7b\"a\": 1\x7d", "\x7b\"a\": 1\x7d"⟩
    (some (.num (.fin ⟨1, 1⟩))) ("2") [Seg.key ("a")] =
    ⟨⟨"\x7b\n  \"a\": 2\n\x7d", "\x7b\"a\": 1\x7d"⟩, none, false⟩ ∧
  ("\x7b\n  \"a\": 2\n\x7d" : String) ≠ "\x7b\"a\": 1\x7d" := by
  refine ⟨by decide, by decide⟩

/-- C4: when some intermediate dereference over segments 0..length-2 yields
undefined, both commits fail with the invalid-path outcome and are no-ops:
the stores keep their texts (nothing is published, no container is created)
and the session leaves editing state.  TextNode reaches its resolution loop
only when the draft actually differs from the displayed value. -/
theorem c4_invalid_intermediate_is_noop :
  ∀ (st : Stores) (root : DocumentValue) (inters : List Seg) (last : Seg)
    (fields : List (String × String)) (value : Option DocumentValue)
    (draft : String),
  loadRoot st.json = .ok root →
  walkInters root inters = .error .invalidPath →
  nodeModalSave st (inters ++ [last]) fields = ⟨st, some .invalidPath, false⟩ ∧
  (jsValueDraft value ≠ draft →
    textNodeSave st value draft (inters ++ [last]) =
      ⟨st, some .invalidPath, false⟩) := by
  intro st root inters last fields value draft hload hwalk
  have hmod : nodeModalMutate root (inters ++ [last]) fields =
      .error .invalidPath := by
    simp only [nodeModalMutate, splitLast_concat]
    exact mutateAt_error_of_walk _ inters root _ hwalk
  have htxt : textNodeMutate root (inters ++ [last]) draft =
      .error .invalidPath := by
    simp only [textNodeMutate, splitLast_concat]
    exact mutateAt_error_of_walk _ inters root _ hwalk
  constructor
  · simp only [nodeModalSave, hload, hmod]
  · intro hne
    have hpne : inters ++ [last] ≠ [] := by simp
    simp only [textNodeSave, if_neg hne, if_neg hpne, hload, htxt]

theorem c4_invalid_intermediate_is_noop_witness :
  nodeModalSave ⟨"\x7b\"x\": 1\x7d", "t"⟩ ([Seg.key ("a")] ++ [Seg.key ("b")]) [] =
    ⟨⟨"\x7b\"x\": 1\x7d", "t"⟩, some .invalidPath, false⟩ ∧
  textNodeSave ⟨"\x7b\"x\": 1\x7d", "t"⟩ (some (.num (.fin ⟨1, 1⟩))) ("2")
    ([Seg.key ("a")] ++ [Seg.key ("b")]) =
    ⟨⟨"\x7b\"x\": 1\x7d", "t"⟩, some .invalidPath, false⟩ := by
  have h := c4_invalid_intermediate_is_noop ⟨"\x7b\"x\": 1\x7d", "t"⟩
    (.obj [("x", .num (.fin ⟨1, 1⟩))]) [Seg.key ("a")] (Seg.key ("b")) []
    (some (.num (.fin ⟨1, 1⟩))) ("2") rfl rfl
  exact ⟨h.1, h.2 (by decide)⟩

/-- C5 counterexample: "0x10" is not a number under standard decimal/exponent
rules, so the claim places it in the "every other input" bucket returning the
raw string; the code runs it through Number(), which accepts hexadecimal, and
coerces it to the number 16. -/
theorem c5_hex_string_coerces_to_number :
  parseDraftValue ("0x10") = .num (.fin ⟨16, 1⟩) ∧
  decExpParse (jsTrim ("0x10")) = none ∧
  DocumentValue.num (.fin ⟨16, 1⟩) ≠ .str ("0x10") := by
  refine ⟨rfl, by decide, fun h => DocumentValue.noConfusion h⟩

/-- C5 amended: coercion is total and deterministic with the stated
precedence on the trimmed input - exactly "null"/"true"/"false" first, then
any non-empty trimmed string the JavaScript Number() conversion accepts
(decimal/exponent forms plus hexadecimal, octal and binary literals and
Infinity, not decimal/exponent forms alone) becomes that number, and every
other input falls back to the original untrimmed raw string; in particular
"" and " hello " coerce to themselves. -/
theorem c5_coerce_precedence_total :
  (∀ raw : String, jsTrim raw = "null" → parseDraftValue raw = .null) ∧
  (∀ raw : String, jsTrim raw = "true" → parseDraftValue raw = .bool true) ∧
  (∀ raw : String, jsTrim raw = "false" → parseDraftValue raw = .bool false) ∧
  (∀ (raw : String) (n : JsNum),
    jsTrim raw ≠ "null" → jsTrim raw ≠ "true" → jsTrim raw ≠ "false" →
    jsTrim raw ≠ "" → jsNumParse (jsTrim raw) = some n →
    parseDraftValue raw = .num n) ∧
  (∀ raw : String,
    jsTrim raw ≠ "null" → jsTrim raw ≠ "true" → jsTrim raw ≠ "false" →
    (jsTrim raw = "" ∨ jsNumParse (jsTrim raw) = none) →
    parseDraftValue raw = .str raw) ∧
  parseDraftValue ("") = .str ("") ∧
  parseDraftValue (" hello ") = .str (" hello ") := by
  have hpd : ∀ raw : String, parseDraftValue raw =
      (if jsTrim raw = "null" then .null
       else if jsTrim raw = "true" then .bool true
       else if jsTrim raw = "false" then .bool false
       else if jsTrim raw ≠ "" then
         (match jsNumParse (jsTrim raw) with
          | some n => DocumentValue.num n
          | none => DocumentValue.str raw)
       else .str raw) := fun raw => rfl
  refine ⟨?_, ?_, ?_, ?_, ?_, rfl, rfl⟩
  · intro raw h
    rw [hpd, if_pos h]
  · intro raw h
    rw [hpd, if_neg (by rw [h]; decide), if_pos h]
  · intro raw h
    rw [hpd, if_neg (by rw [h]; decide), if_neg (by rw [h]; decide), if_pos h]
  · intro raw n h1 h2 h3 h4 h5
    rw [hpd, if_neg h1, if_neg h2, if_neg h3, if_pos h4, h5]
  · intro raw h1 h2 h3 h4
    cases h4 with
    | inl he =>
      rw [hpd, if_neg h1, if_neg h2, if_neg h3, if_neg (fun hh => hh he)]
    | inr hnone =>
      have h4b : jsTrim raw ≠ "" := by
        intro heq
        rw [heq] at hnone
        exact absurd hnone (by decide)
      rw [hpd, if_neg h1, if_neg h2, if_neg h3, if_pos h4b, hnone]

theorem c5_coerce_precedence_total_witness :
  parseDraftValue ("42") = .num (.fin ⟨42, 1⟩) :=
  c5_coerce_precedence_total.2.2.2.1 ("42") (.fin ⟨42, 1⟩) (by decide)
    (by decide) (by decide) (by decide) (by decide)

/-- C6: field-map semantics on a non-array object target: every (key, raw)
entry of the field map ends up as the coerced value at that key (keys not
previously present are created), keys outside the field map keep their prior
values, and end to end the root document {"user":{"age":30}} with path
["user"] and fields {"age": "31"} publishes {"user":{"age":31}} with a
numeric 31. -/
theorem c6_fieldmap_update_semantics :
  (∀ (l : List (String × DocumentValue)) (fields : List (String × String))
     (k raw : String), (fields.map Prod.fst).Nodup → (k, raw) ∈ fields →
     assocLookup (applyFields l fields) k = some (parseDraftValue raw)) ∧
  (∀ (l : List (String × DocumentValue)) (fields : List (String × String))
     (k : String), k ∉ fields.map Prod.fst →
     assocLookup (applyFields l fields) k = assocLookup l k) ∧
  (∀ (root parent : DocumentValue) (inters : List Seg) (last : Seg)
     (l : List (String × DocumentValue)) (fields : List (String × String)),
     walkInters root inters = .ok parent →
     jsGetSlot parent last = .ok (some (.obj l)) →
     ∃ r, nodeModalMutate root (inters ++ [last]) fields = .ok r ∧
       readSlot r (inters ++ [last]) = .ok (some (.obj (applyFields l fields)))) ∧
  nodeModalSave ⟨"\x7b\"user\":\x7b\"age\":30\x7d\x7d", ""⟩ [Seg.key ("user")]
    [("age", "31")] =
    ⟨⟨"\x7b\n  \"user\": \x7b\n    \"age\": 31\n  \x7d\n\x7d",
      "\x7b\n  \"user\": \x7b\n    \"age\": 31\n  \x7d\n\x7d"⟩, none, false⟩ := by
  refine ⟨applyFields_mem, applyFields_frame, ?_, by decide⟩
  intro root parent inters last l fields hwalk hslot
  have hcont : isContainer parent = true :=
    container_of_slot parent last _ hslot (fun u h => DocumentValue.noConfusion h)
  obtain ⟨w, hset, hwslot⟩ :=
    slot_set parent last _ (.obj (applyFields l fields)) hcont hslot
  have haction : nodeModalAction fields last parent = .ok w := by
    simp only [nodeModalAction, hslot]
    exact hset
  obtain ⟨r, hr, hwr⟩ := mutate_ok _ inters root parent w hcont hwalk haction
  refine ⟨r, ?_, ?_⟩
  · simp only [nodeModalMutate, splitLast_concat]
    exact hr
  · simp only [readSlot, splitLast_concat, hwr]
    exact hwslot

theorem c6_fieldmap_update_semantics_witness :
  assocLookup (applyFields [("age", DocumentValue.num (.fin ⟨30, 1⟩))]
    [("age", "31")]) ("age") = some (parseDraftValue ("31")) :=
  c6_fieldmap_update_semantics.1 [("age", DocumentValue.num (.fin ⟨30, 1⟩))]
    [("age", "31")] ("age") ("31") (by decide) (by decide)

/-- C7 counterexample: committing the exact projected field map of the object
at ["user"] in {"user":{"age":"30"}} does not round-trip - the projected text
"30" re-coerces to the number 30, so the published canonical text differs
from the document's canonical text before the commit. -/
theorem c7_numeric_string_field_breaks_roundtrip :
  nodeModalSave ⟨"\x7b\"user\":\x7b\"age\":\"30\"\x7d\x7d", ""⟩ [Seg.key ("user")]
    (projectObjFields [("age", DocumentValue.str ("30"))]) =
    ⟨⟨"\x7b\n  \"user\": \x7b\n    \"age\": 30\n  \x7d\n\x7d",
      "\x7b\n  \"user\": \x7b\n    \"age\": 30\n  \x7d\n\x7d"⟩, none, false⟩ ∧
  stringifyDoc (.obj [("user", .obj [("age", DocumentValue.str ("30"))])]) 0 =
    "\x7b\n  \"user\": \x7b\n    \"age\": \"30\"\n  \x7d\n\x7d" ∧
  ("\x7b\n  \"user\": \x7b\n    \"age\": 30\n  \x7d\n\x7d" : String) ≠
    "\x7b\n  \"user\": \x7b\n    \"age\": \"30\"\n  \x7d\n\x7d" := by
  refine ⟨by decide, by decide, by decide⟩

/-- C7 amended: the no-op round-trip holds exactly under field-faithfulness:
for an object target with pairwise distinct keys all of whose non-container,
non-empty-key entries re-coerce from their projected text to their original
value (parseDraftValue (fieldText v) = v - which rules out string values that
look numeric or boolean and null values, see the counterexample), committing
the projected field map returns the document value unchanged, hence the same
canonical serialization is published. -/
theorem c7_roundtrip_of_faithful_fields :
  (∀ l : List (String × DocumentValue),
     (l.map Prod.fst).Nodup →
     (∀ k v, (k, v) ∈ l → isContainer v = false → k ≠ "" →
       parseDraftValue (fieldText v) = v) →
     nodeModalMutate (.obj l) [] (projectObjFields l) = .ok (.obj l)) ∧
  (∀ (root parent : DocumentValue) (inters : List Seg) (last : Seg)
     (l : List (String × DocumentValue)),
     walkInters root inters = .ok parent →
     jsGetSlot parent last = .ok (some (.obj l)) →
     (l.map Prod.fst).Nodup →
     (∀ k v, (k, v) ∈ l → isContainer v = false → k ≠ "" →
       parseDraftValue (fieldText v) = v) →
     nodeModalMutate root (inters ++ [last]) (projectObjFields l) = .ok root) ∧
  (∀ (st : Stores) (root : DocumentValue) (path : List Seg)
     (fields : List (String × String)),
     loadRoot st.json = .ok root →
     nodeModalMutate root path fields = .ok root →
     nodeModalSave st path fields =
       ⟨⟨stringifyDoc root 0, stringifyDoc root 0⟩, none, false⟩) := by
  refine ⟨?_, ?_, ?_⟩
  · intro l hn hf
    have happ := applyProject_self l hn hf
    simp only [nodeModalMutate, splitLast, nodeModalRootUpdate, happ]
  · intro root parent inters last l hwalk hslot hn hf
    have happ := applyProject_self l hn hf
    have hcont : isContainer parent = true :=
      container_of_slot parent last _ hslot (fun u h => DocumentValue.noConfusion h)
    have haction : nodeModalAction (projectObjFields l) last parent =
        .ok parent := by
      simp only [nodeModalAction, hslot, happ]
      exact jsSet_self parent last _ hcont hslot
    have hid := mutate_id (nodeModalAction (projectObjFields l) last)
      (fun t r => nodeModalAction_str (projectObjFields l) last t r)
      inters root parent hwalk haction
    simp only [nodeModalMutate, splitLast_concat]
    exact hid
  · intro st root path fields hload hmut
    simp only [nodeModalSave, hload, hmut]

theorem c7_roundtrip_of_faithful_fields_witness :
  nodeModalMutate (.obj [("a", DocumentValue.str ("x"))]) []
    (projectObjFields [("a", DocumentValue.str ("x"))]) =
    .ok (.obj [("a", DocumentValue.str ("x"))]) :=
  c7_roundtrip_of_faithful_fields.1 [("a", DocumentValue.str ("x"))]
    (by simp)
    (fun k v hm hc hk => by
      have h := List.mem_singleton.mp hm
      injection h with h1 h2
      subst h1
      subst h2
      rfl)

/-- C8 counterexample: with document {"a": null} and path ["a","b"] every
intermediate segment resolves to a defined value (root.a is null) and the
final segment is absent from the resolved parent, yet the scalar commit does
fail - the strict-mode assignment on null throws a TypeError, no slot is
created and nothing is published. -/
theorem c8_null_parent_scalar_commit_fails :
  textNodeSave ⟨"\x7b\"a\": null\x7d", "c"⟩ (some (.str ("old"))) ("1")
    [Seg.key ("a"), Seg.key ("b")] =
    ⟨⟨"\x7b\"a\": null\x7d", "c"⟩, some .typeError, false⟩ := by decide

/-- C8 amended: only intermediate segments must exist provided the resolved
parent is a container: when the walk reaches a non-array object parent, a
scalar commit creates the absent final key with the coerced draft; when it
reaches an array parent with a numeric index at or beyond the length, the
array is padded and the fresh slot assigned.  A null or primitive parent
instead aborts the commit (see the counterexample). -/
theorem c8_absent_final_slot_created :
  (∀ (root : DocumentValue) (inters : List Seg) (last : Seg)
     (l : List (String × DocumentValue)) (draft : String),
     walkInters root inters = .ok (.obj l) →
     assocLookup l (segKey last) = none →
     ∃ r, textNodeMutate root (inters ++ [last]) draft = .ok r ∧
       readSlot r (inters ++ [last]) = .ok (some (parseDraftValue draft))) ∧
  (∀ (root : DocumentValue) (inters : List Seg) (n : Nat)
     (l : List DocumentValue) (draft : String),
     walkInters root inters = .ok (.arr l) →
     l.length ≤ n →
     ∃ r, textNodeMutate root (inters ++ [Seg.idx n]) draft = .ok r ∧
       readSlot r (inters ++ [Seg.idx n]) = .ok (some (parseDraftValue draft))) := by
  constructor
  · intro root inters last l draft hwalk habs
    have hset : jsSet (.obj l) last (parseDraftValue draft) =
        .ok (.obj (assocSet l (segKey last) (parseDraftValue draft))) := rfl
    obtain ⟨r, hr, hwr⟩ := mutate_ok
      (fun parent => jsSet parent last (parseDraftValue draft)) inters root
      (.obj l) (.obj (assocSet l (segKey last) (parseDraftValue draft)))
      rfl hwalk hset
    refine ⟨r, ?_, ?_⟩
    · simp only [textNodeMutate, splitLast_concat]
      exact hr
    · simp only [readSlot, splitLast_concat, hwr, jsGetSlot,
        assocLookup_assocSet_self]
  · intro root inters n l draft hwalk hlen
    have hset : jsSet (.arr l) (.idx n) (parseDraftValue draft) =
        .ok (.arr (arrSet l n (parseDraftValue draft))) := rfl
    obtain ⟨r, hr, hwr⟩ := mutate_ok
      (fun parent => jsSet parent (Seg.idx n) (parseDraftValue draft)) inters root
      (.arr l) (.arr (arrSet l n (parseDraftValue draft))) rfl hwalk hset
    refine ⟨r, ?_, ?_⟩
    · simp only [textNodeMutate, splitLast_concat]
      exact hr
    · simp only [readSlot, splitLast_concat, hwr, jsGetSlot]
      simpa [List.get?_eq_getElem?] using arrSet_get l n (parseDraftValue draft)

theorem c8_absent_final_slot_created_witness :
  ∃ r, textNodeMutate (.obj [("a", DocumentValue.obj [])])
    ([Seg.key ("a")] ++ [Seg.key ("b")]) ("1") = .ok r ∧
    readSlot r ([Seg.key ("a")] ++ [Seg.key ("b")]) =
      .ok (some (parseDraftValue ("1"))) :=
  c8_absent_final_slot_created.1 (.obj [("a", DocumentValue.obj [])])
    [Seg.key ("a")] (Seg.key ("b")) [] ("1") rfl rfl

/-- C9: a non-empty path whose final slot holds JSON null takes the
scalar-replace branch (null is falsy, so the non-array-object test fails):
the null slot as a whole becomes the coerced first field value - or the
coerced empty string when the field map is empty - and no field keys are ever
written into the null target. -/
theorem c9_null_target_scalar_replaced :
  ∀ (root parent : DocumentValue) (inters : List Seg) (last : Seg)
    (fields : List (String × String)),
  walkInters root inters = .ok parent →
  jsGetSlot parent last = .ok (some .null) →
  ∃ r, nodeModalMutate root (inters ++ [last]) fields = .ok r ∧
    readSlot r (inters ++ [last]) =
      .ok (some (parseDraftValue (firstFieldValue fields))) := by
  intro root parent inters last fields hwalk hslot
  have hcont : isContainer parent = true :=
    container_of_slot parent last _ hslot (fun u h => DocumentValue.noConfusion h)
  obtain ⟨w, hset, hwslot⟩ :=
    slot_set parent last _ (parseDraftValue (firstFieldValue fields)) hcont hslot
  have haction : nodeModalAction fields last parent = .ok w := by
    simp only [nodeModalAction, hslot]
    exact hset
  obtain ⟨r, hr, hwr⟩ := mutate_ok _ inters root parent w hcont hwalk haction
  refine ⟨r, ?_, ?_⟩
  · simp only [nodeModalMutate, splitLast_concat]
    exact hr
  · simp only [readSlot, splitLast_concat, hwr]
    exact hwslot

theorem c9_null_target_scalar_replaced_witness :
  ∃ r, nodeModalMutate (.obj [("a", DocumentValue.null)])
    ([] ++ [Seg.key ("a")]) [("x", "7")] = .ok r ∧
    readSlot r ([] ++ [Seg.key ("a")]) =
      .ok (some (parseDraftValue (firstFieldValue [("x", "7")]))) :=
  c9_null_target_scalar_replaced (.obj [("a", DocumentValue.null)])
    (.obj [("a", DocumentValue.null)]) [] (Seg.key ("a")) [("x", "7")] rfl rfl

/-- C10: an empty document text store is not a parse failure: the root
becomes a freshly created empty object and both commits proceed with
resolution and mutation against that empty object exactly as they would on
a parsed document. -/
theorem c10_empty_text_treated_as_empty_object :
  ∀ (st : Stores) (path : List Seg) (fields : List (String × String))
    (value : Option DocumentValue) (draft : String),
  st.json = "" →
  loadRoot st.json = .ok (.obj []) ∧
  nodeModalSave st path fields =
    (match nodeModalMutate (.obj []) path fields with
     | .ok r => ⟨⟨stringifyDoc r 0, stringifyDoc r 0⟩, none, false⟩
     | .error e => ⟨st, some e, false⟩) ∧
  (nodeModalSave st path fields).err ≠ some .parseFailure ∧
  (jsValueDraft value ≠ draft → path ≠ [] →
    textNodeSave st value draft path =
      (match textNodeMutate (.obj []) path draft with
       | .ok r => ⟨⟨stringifyDoc r 0, st.contents⟩, none, false⟩
       | .error e => ⟨st, some e, false⟩)) ∧
  (textNodeSave st value draft path).err ≠ some .parseFailure := by
  intro st path fields value draft hjson
  have hload : loadRoot st.json = .ok (.obj []) := by
    simp [loadRoot, hjson]
  refine ⟨hload, ?_, ?_, ?_, ?_⟩
  · simp only [nodeModalSave, hload]
    cases nodeModalMutate (.obj []) path fields <;> rfl
  · simp only [nodeModalSave, hload]
    cases hm : nodeModalMutate (.obj []) path fields with
    | ok r => simp
    | error e =>
      have hnp := nodeModalMutate_ne_parse (.obj []) path fields
      rw [hm] at hnp
      simp only [SaveOutcome.err]
      intro hcon
      injection hcon with h2
      exact hnp (by rw [h2])
  · intro hne hpne
    simp only [textNodeSave, if_neg hne, if_neg hpne, hload]
    cases textNodeMutate (.obj []) path draft <;> rfl
  · by_cases h1 : jsValueDraft value = draft
    · simp [textNodeSave, h1]
    · by_cases h2 : path = []
      · simp [textNodeSave, h1, h2]
      · simp only [textNodeSave, if_neg h1, if_neg h2, hload]
        cases hm : textNodeMutate (.obj []) path draft with
        | ok r => simp
        | error e =>
          have hnp := textNodeMutate_ne_parse (.obj []) path draft
          rw [hm] at hnp
          simp only [SaveOutcome.err]
          intro hcon
          injection hcon with h3
          exact hnp (by rw [h3])

theorem c10_empty_text_treated_as_empty_object_witness :
  nodeModalSave ⟨"", "x"⟩ [] [("a", "1")] =
    ⟨⟨"\x7b\n  \"a\": 1\n\x7d", "\x7b\n  \"a\": 1\n\x7d"⟩, none, false⟩ := by
  have h := c10_empty_text_treated_as_empty_object ⟨"", "x"⟩ [] [("a", "1")]
    none ("1") rfl
  rw [h.2.1]
  decide

example : jsNumParse ("3.14e2") = some (.fin ⟨314, 1⟩) := by decide
example : jsNumParse ("0x10") = some (.fin ⟨16, 1⟩) := by decide
example : jsNumParse ("0.5") = some (.fin ⟨1, 2⟩) := by decide
example : jsNumParse ("1e-3") = some (.fin ⟨1, 1000⟩) := by decide
example : jsNumParse ("-2.5") = some (.fin ⟨-5, 2⟩) := by decide
example : jsNumParse ("Infinity") = some (.inf false) := by decide
example : jsNumParse ("NaN") = none := by decide
example : jsNumParse ("12px") = none := by decide
example : parseDraftValue (" hello ") = .str (" hello ") := rfl
example : parseDraftValue ("") = .str ("") := rfl
example : parseDraftValue ("null") = .null := rfl
example : decExpParse ("0x10") = none := by decide
